import Mathlib

/-!
Verification of the external heredoc/nowdoc scanner of tree-sitter-hack
(src/scanner.c), as a shallow embedding in Lean 4.

Modelling conventions:
* Code points are `Nat`.  The lexer's input is a `List Nat`; reading past the
  end yields `0`, matching tree-sitter's convention that a lookahead of `0`
  signals end of input.
* The `TSLexer` interface is modelled by the `Lexer` structure: `pos` is the
  cursor, `marked` the position recorded by the last `mark_end`, and `result`
  the `result_symbol` field.  `next`, `skip`, `stop`, `set_result` embed the
  `next()`, `skip()`, `stop()` and `set()` macros of the source.
* `iswspace`, `iswalpha`, `iswalnum` are modelled at the default "C" locale
  (the scanner never calls `setlocale`), i.e. they classify ASCII only.
* The scanner's growable `String` buffer is modelled by the `List Nat` it
  holds (`data[0..len)`); capacity management is not observable.
* The unbounded `for (;;)` loop of `scan_body` is embedded with an explicit
  fuel parameter (`none` = fuel exhausted); all theorems about it quantify
  over the fuel.
* `unsigned` arithmetic in `deserialize` (`length - 3`) is modelled with an
  explicit wrap modulo `2^32` (`deserializeLen`).
-/

namespace TreeSitterHack

/-- The six token kinds of `enum TokenType` in scanner.c, in source order. -/
inductive TokenType where
  | HEREDOC_START
  | HEREDOC_START_NEWLINE
  | HEREDOC_BODY
  | HEREDOC_END_NEWLINE
  | HEREDOC_END
  | EMBEDDED_OPENING_BRACE
deriving DecidableEq, Repr

open TokenType

/-- Model of the `TSLexer` cursor handed to the scanner by the host. -/
structure Lexer where
  input : List Nat
  pos : Nat
  marked : Option Nat
  result : Option TokenType
deriving DecidableEq, Repr

/-- `peek()` = `lexer->lookahead`: the code point at the cursor, `0` past the
end of input. -/
def peek (lx : Lexer) : Nat := lx.input.getD lx.pos 0

/-- `next()` = `lexer->advance(lexer, false)`. -/
def next (lx : Lexer) : Lexer := { lx with pos := lx.pos + 1 }

/-- `skip()` = `lexer->advance(lexer, true)` (whitespace outside the token). -/
def skip (lx : Lexer) : Lexer := { lx with pos := lx.pos + 1 }

/-- `stop()` = `lexer->mark_end(lexer)`: record the current cursor position as
the end of the token being matched. -/
def stop (lx : Lexer) : Lexer := { lx with marked := some lx.pos }

/-- `set(symbol)` = `lexer->result_symbol = symbol`. -/
def set_result (t : TokenType) (lx : Lexer) : Lexer := { lx with result := some t }

/-- The persistent scanner state (`struct Scanner` in scanner.c); the
`String delimiter` buffer is modelled by the list of bytes it holds. -/
structure Scanner where
  delimiter : List Nat
  is_nowdoc : Bool
  did_start : Bool
  did_end : Bool
deriving DecidableEq, Repr

/-- `iswspace` at the default C locale: ASCII whitespace. -/
def iswspace (c : Nat) : Bool := c == 32 || (9 ≤ c && c ≤ 13)

/-- `iswalpha` at the default C locale: ASCII letters only. -/
def iswalpha (c : Nat) : Bool := (65 ≤ c && c ≤ 90) || (97 ≤ c && c ≤ 122)

/-- `iswdigit`: ASCII digits. -/
def iswdigit (c : Nat) : Bool := 48 ≤ c && c ≤ 57

/-- `iswalnum` at the default C locale: ASCII letters and digits. -/
def iswalnum (c : Nat) : Bool := iswalpha c || iswdigit c

/-- `is_identifier_start_char` from scanner.c: `_`, ASCII letters, or the
high-byte range 128-255. -/
def is_identifier_start_char (c : Nat) : Bool :=
  c == 95 || (97 ≤ c && c ≤ 122) || (65 ≤ c && c ≤ 90) || (128 ≤ c && c ≤ 255)

/-- `TREE_SITTER_SERIALIZATION_BUFFER_SIZE` (tree-sitter's fixed 1024). -/
def BUFFER_SIZE : Nat := 1024

/-- `serialize` from scanner.c: returns the length written and the buffer
contents (`is_nowdoc`, `did_start`, `did_end` at offsets 0-2, then the
delimiter bytes); returns length 0 when `delimiter.len + 2 >=` the buffer
size. -/
def serialize (s : Scanner) : Nat × List Nat :=
  if BUFFER_SIZE ≤ s.delimiter.length + 2 then (0, [])
  else (s.delimiter.length + 3,
    (if s.is_nowdoc then 1 else 0) ::
    (if s.did_start then 1 else 0) ::
    (if s.did_end then 1 else 0) :: s.delimiter)

/-- The delimiter length computed by `deserialize`: the C expression
`length - 3` on a 32-bit `unsigned`, i.e. subtraction that wraps modulo
`2^32`. -/
def deserializeLen (length : Nat) : Nat := (length + 2 ^ 32 - 3) % 2 ^ 32

/-- `deserialize` from scanner.c: length 0 resets every field; otherwise the
three flags are read from offsets 0-2 (as C `bool`: nonzero means true) and
`length - 3` delimiter bytes are copied from offset 3. -/
def deserialize (buffer : List Nat) (length : Nat) : Scanner :=
  if length = 0 then
    { delimiter := [], is_nowdoc := false, did_start := false, did_end := false }
  else
    { delimiter := (buffer.drop 3).take (deserializeLen length)
      is_nowdoc := buffer.getD 0 0 != 0
      did_start := buffer.getD 1 0 != 0
      did_end := buffer.getD 2 0 != 0 }

/-- `scan_delimiter` from scanner.c: compare the upcoming input byte-for-byte
against the delimiter, advancing on each match; fail on the first mismatch. -/
def scan_delimiter : List Nat → Lexer → Bool × Lexer
  | [], lx => (true, lx)
  | c :: rest, lx => if peek lx = c then scan_delimiter rest (next lx) else (false, lx)

/-- Outcome of the interpolation branch of `scan_body` (scanner.c lines
225-253): emit `EMBEDDED_OPENING_BRACE` (returning true), emit `HEREDOC_BODY`
(returning `did_advance`), or fall through and continue the loop. -/
inductive InterpStep where
  | embox : Lexer → InterpStep
  | ibody : Lexer → InterpStep
  | icont : Lexer → InterpStep

/-- The trailing `if (peek() == '$') ...` part of the interpolation branch
(scanner.c lines 242-249): on `$` followed by an identifier start, set
`HEREDOC_BODY`; otherwise continue the loop. -/
def interpDollar (lx : Lexer) : InterpStep :=
  if peek lx = 36 then
    let lx1 := next lx
    if is_identifier_start_char (peek lx1) then InterpStep.ibody (set_result HEREDOC_BODY lx1)
    else InterpStep.icont lx1
  else InterpStep.icont lx

/-- The interpolation branch of `scan_body` (scanner.c lines 225-253), entered
when the lookahead is `{` or `$` and `is_nowdoc` is false: `mark_end`, handle
`{$` (only when no body byte was consumed yet), then the `$` case. -/
def interpBranch (da : Bool) (lx : Lexer) : InterpStep :=
  let lx1 := stop lx
  if peek lx1 = 123 then
    let lx2 := next lx1
    if peek lx2 = 36 ∧ da = false then
      let lx3 := next (stop lx2)
      if is_identifier_start_char (peek lx3) then
        InterpStep.embox (set_result EMBEDDED_OPENING_BRACE lx3)
      else interpDollar lx3
    else interpDollar lx2
  else interpDollar lx1

/-- Cursor adjustment at the top of the close-attempt branch (scanner.c lines
256-292): with body bytes consumed, `stop` then `next`; otherwise on a
newline either `skip` it (`did_end` already known) or consume it and `stop`
after it. -/
def closePos (s : Scanner) (da : Bool) (lx : Lexer) : Lexer :=
  if da then next (stop lx)
  else if peek lx = 10 then (if s.did_end then skip lx else stop (next lx))
  else lx

/-- The close-attempt branch of `scan_body` (scanner.c lines 255-323), entered
when `did_end` is set or the lookahead is a newline.  `Sum.inl` is a return
from `scan_body` (result flag, new scanner state, lexer); `Sum.inr` continues
the loop with `did_advance = true`. -/
def closeAttempt (s : Scanner) (da : Bool) (lx : Lexer) : (Bool × Scanner × Lexer) ⊕ Lexer :=
  match scan_delimiter s.delimiter (closePos s da lx) with
  | (true, lxB) =>
    let lxC := if da = false ∧ s.did_end then stop lxB else lxB
    let lxD := if peek lxC = 59 then next lxC else lxC
    if peek lxD = 10 then
      if da then
        Sum.inl (true, { s with did_start := true, did_end := true },
          set_result HEREDOC_BODY lxD)
      else if s.did_end then
        Sum.inl (true, { delimiter := []
                         is_nowdoc := false
                         did_start := false
                         did_end := false }, set_result HEREDOC_END lxD)
      else
        Sum.inl (true, { s with did_start := true, did_end := true },
          set_result HEREDOC_END_NEWLINE lxD)
    else Sum.inr lxD
  | (false, lxB) =>
    if s.did_start = false ∧ da = false then
      Sum.inl (true, { s with did_start := true }, set_result HEREDOC_START_NEWLINE lxB)
    else Sum.inr lxB

/-- The `for (;;)` loop of `scan_body` (scanner.c lines 213-328), with an
explicit fuel bound on the number of iterations.  `da` is the local
`did_advance` flag; every `continue` of the source re-enters with
`da = true`. -/
def scanBodyLoop : Nat → Scanner → Lexer → Bool → Option (Bool × Scanner × Lexer)
  | 0, _, _, _ => none
  | fuel + 1, s, lx, da =>
    if peek lx = 0 then some (false, s, lx)
    else if peek lx = 92 then scanBodyLoop fuel s (next (next lx)) true
    else if (peek lx = 123 ∨ peek lx = 36) ∧ s.is_nowdoc = false then
      match interpBranch da lx with
      | InterpStep.embox lx1 => some (true, s, lx1)
      | InterpStep.ibody lx1 => some (da, s, lx1)
      | InterpStep.icont lx1 => scanBodyLoop fuel s lx1 true
    else if s.did_end = true ∨ peek lx = 10 then
      match closeAttempt s da lx with
      | Sum.inl r => some r
      | Sum.inr lx1 => scanBodyLoop fuel s lx1 true
    else scanBodyLoop fuel s (next lx) true

/-- `scan_body` from scanner.c: the loop entered with `did_advance = false`. -/
def scan_body (fuel : Nat) (s : Scanner) (lx : Lexer) : Option (Bool × Scanner × Lexer) :=
  scanBodyLoop fuel s lx false

/-- Number of characters consumed by the `while (iswspace(peek())) skip();`
loop of `scan_start`, as a function of the remaining input. -/
def wsCount : List Nat → Nat
  | [] => 0
  | c :: tl => if iswspace c then wsCount tl + 1 else 0

/-- The whitespace-skipping loop at the top of `scan_start` (scanner.c line
334). -/
def skipWs (lx : Lexer) : Lexer :=
  { lx with pos := lx.pos + wsCount (lx.input.drop lx.pos) }

/-- The characters pushed by the inner `while (iswalnum(peek()) || peek() ==
'_')` loop of `scan_start` (scanner.c lines 349-352), as a function of the
remaining input. -/
def identScan : List Nat → List Nat
  | [] => []
  | c :: tl => if iswalnum c || c == 95 then c :: identScan tl else []

/-- The identifier-accumulation block of `scan_start` (scanner.c lines
345-353): push a first `iswalpha`/underscore character, then the `identScan`
loop; returns the accumulated delimiter and the advanced lexer. -/
def scan_ident (lx : Lexer) : List Nat × Lexer :=
  if iswalpha (peek lx) || peek lx == 95 then
    let rest := identScan (lx.input.drop (lx.pos + 1))
    (peek lx :: rest, { lx with pos := lx.pos + 1 + rest.length })
  else ([], lx)

/-- The tail of `scan_start` after the closing-quote check (scanner.c lines
364-382): require a newline and a non-empty delimiter, emit `HEREDOC_START`
with `mark_end` before the newline, then optimistically try to match the
closing delimiter (setting `did_end` on success followed by optional `;` and
a newline).  Returns success regardless of the optimistic match. -/
def scan_start_close (s : Scanner) (lx : Lexer) : Bool × Scanner × Lexer :=
  if peek lx = 10 ∧ s.delimiter ≠ [] then
    let lx1 := next (stop (set_result HEREDOC_START lx))
    match scan_delimiter s.delimiter lx1 with
    | (true, lx2) =>
      let lx3 := if peek lx2 = 59 then next lx2 else lx2
      if peek lx3 = 10 then (true, { s with did_end := true }, lx3)
      else (true, s, lx3)
    | (false, lx2) => (true, s, lx2)
  else (false, s, lx)

/-- `scan_start` from scanner.c (lines 331-383): skip leading whitespace,
record `is_nowdoc`/the optional quote, accumulate the delimiter, check the
matching closing quote, then `scan_start_close`. -/
def scan_start (s : Scanner) (lx : Lexer) : Bool × Scanner × Lexer :=
  let lx0 := skipWs lx
  let nd : Bool := peek lx0 == 39
  let qpresent : Bool := nd || peek lx0 == 34
  let quote : Nat := if qpresent then peek lx0 else 0
  let lx1 := if qpresent then next lx0 else lx0
  let idl := scan_ident lx1
  let s1 : Scanner := { delimiter := idl.1
                        is_nowdoc := nd
                        did_start := s.did_start
                        did_end := s.did_end }
  if peek idl.2 = quote then scan_start_close s1 (next idl.2)
  else if quote ≠ 0 then (false, s1, idl.2)
  else scan_start_close s1 idl.2

/-- The `scan` dispatcher (scanner.c lines 389-421): run `scan_body` when one
of `HEREDOC_BODY`/`HEREDOC_END`/`EMBEDDED_OPENING_BRACE` is expected and a
delimiter is pending, else `scan_start` when `HEREDOC_START` is expected,
else fail. -/
def scan (fuel : Nat) (s : Scanner) (lx : Lexer) (expected : TokenType → Bool) :
    Option (Bool × Scanner × Lexer) :=
  if (expected HEREDOC_BODY || expected HEREDOC_END ||
      expected EMBEDDED_OPENING_BRACE) = true ∧ 0 < s.delimiter.length then
    scan_body fuel s lx
  else if expected HEREDOC_START = true then some (scan_start s lx)
  else some (false, s, lx)

/-- One host-driven invocation of `scan`: the expected-token vector, the lexer
cursor the host supplies, and a fuel bound for the body loop. -/
structure HostStep where
  expected : TokenType → Bool
  lx : Lexer
  fuel : Nat

/-- The scanner state right after `create` (calloc'ed zeroes, empty
delimiter). -/
def initScanner : Scanner :=
  { delimiter := [], is_nowdoc := false, did_start := false, did_end := false }

/-- Run a sequence of host-driven scans, threading the scanner state and
collecting the emitted tokens.  Per the external-scanner contract, state
changes of a failed scan are discarded by the host; a fuel-exhausted body
scan emits nothing. -/
def runTrace : Scanner → List HostStep → List TokenType
  | _, [] => []
  | s, step :: rest =>
    match scan step.fuel s step.lx step.expected with
    | some (true, s1, lx1) =>
      match lx1.result with
      | some t => t :: runTrace s1 rest
      | none => runTrace s1 rest
    | _ => runTrace s rest

/-- Checks that in a token stream every `HEREDOC_END` is covered by a
`HEREDOC_START` emitted since the previous `HEREDOC_END`: the Boolean flag
records whether a heredoc is currently open. -/
def endsBracketed : List TokenType → Bool → Bool
  | [], _ => true
  | HEREDOC_START :: rest, _ => endsBracketed rest true
  | HEREDOC_END :: rest, opened => opened && endsBracketed rest false
  | _ :: rest, opened => endsBracketed rest opened

/-! Spec-side definitions, written from the specification's words, for the
refinement claims about `scan_start` (C5). -/

/-- The spec's identifier-start class as the claim states it:
`[_A-Za-z\x80-\xFF]`. -/
def claimIdentStart (c : Nat) : Bool :=
  c == 95 || (65 ≤ c && c ≤ 90) || (97 ≤ c && c ≤ 122) || (128 ≤ c && c ≤ 255)

/-- The spec's identifier-continuation class: `[_A-Za-z0-9]` (bytes 0x80-0xFF
accepted only in the first position, per the claim). -/
def claimIdentCont (c : Nat) : Bool :=
  c == 95 || (65 ≤ c && c ≤ 90) || (97 ≤ c && c ≤ 122) || (48 ≤ c && c ≤ 57)

/-- The amended identifier-start class: `[_A-Za-z]` (the code's `iswalpha` at
the default C locale accepts no high bytes). -/
def specIdentStart (c : Nat) : Bool :=
  c == 95 || (65 ≤ c && c ≤ 90) || (97 ≤ c && c ≤ 122)

/-- Longest identifier at the head of the list for a given pair of
start/continuation classes: a start character followed by continuation
characters. -/
def specTakeIdent (start cont : Nat → Bool) : List Nat → List Nat
  | [] => []
  | c :: tl => if start c then c :: tl.takeWhile cont else []

/-- Recognition of a heredoc opener after the optional quote, per the spec: a
non-empty identifier, the matching closing quote when one was opened, then
immediately a newline.  Returns the identifier on success. -/
def openerSpecCore (start cont : Nat → Bool) (q : Option Nat) (r : List Nat) :
    Option (List Nat) :=
  let ident := specTakeIdent start cont r
  match q with
  | some qc =>
    match r.drop ident.length with
    | c :: c2 :: _ => if c = qc ∧ c2 = 10 ∧ ident ≠ [] then some ident else none
    | _ => none
  | none =>
    match r.drop ident.length with
    | c :: _ => if c = 10 ∧ ident ≠ [] then some ident else none
    | _ => none

/-- The full opener grammar of the spec:
`[ws]* ( quote ident quote | ident ) newline`, with `is_nowdoc` true exactly
for the single-quoted form. -/
def openerSpecWith (start cont : Nat → Bool) (l : List Nat) :
    Option (List Nat × Bool) :=
  match l.dropWhile iswspace with
  | [] => none
  | c :: r =>
    if c = 39 then (openerSpecCore start cont (some 39) r).map (fun i => (i, true))
    else if c = 34 then (openerSpecCore start cont (some 34) r).map (fun i => (i, false))
    else (openerSpecCore start cont none (c :: r)).map (fun i => (i, false))

/-- The opener grammar exactly as claim C5 states it (high bytes allowed as
the first identifier character). -/
def claimOpenerSpec (l : List Nat) : Option (List Nat × Bool) :=
  openerSpecWith claimIdentStart claimIdentCont l

/-- The amended opener grammar: identifiers are `[_A-Za-z][_A-Za-z0-9]*`,
matching the code's `iswalpha`/`iswalnum` at the default C locale. -/
def openerSpec (l : List Nat) : Option (List Nat × Bool) :=
  openerSpecWith specIdentStart claimIdentCont l

/-- Invariant on the delimiter buffer (claim C9, contents part): every byte is
an ASCII letter, digit, or underscore. -/
def goodDelim (d : List Nat) : Prop := ∀ c ∈ d, iswalnum c = true ∨ c = 95

/-! ### Basic lemmas about the lexer model -/

lemma peek_stop (lx : Lexer) : peek (stop lx) = peek lx := rfl

lemma peek_set_result (t : TokenType) (lx : Lexer) : peek (set_result t lx) = peek lx := rfl

lemma getD_eq_headD_drop (l : List Nat) (n : Nat) : l.getD n 0 = (l.drop n).headD 0 := by
  induction n generalizing l with
  | zero => cases l <;> rfl
  | succ k ih => cases l with
    | nil => rfl
    | cons c tl => simp only [List.getD_cons_succ, List.drop_succ_cons]; exact ih tl

lemma peek_eq_headD (lx : Lexer) : peek lx = (lx.input.drop lx.pos).headD 0 :=
  getD_eq_headD_drop _ _

lemma drop_next_of_cons (lx : Lexer) (c : Nat) (r : List Nat)
    (h : lx.input.drop lx.pos = c :: r) :
    lx.input.drop (lx.pos + 1) = r := by
  have : lx.input.drop (lx.pos + 1) = (lx.input.drop lx.pos).drop 1 := by
    rw [List.drop_drop]
  rw [this, h, List.drop_one, List.tail_cons]

lemma peek_of_drop (lx : Lexer) (c : Nat) (r : List Nat)
    (h : lx.input.drop lx.pos = c :: r) : peek lx = c := by
  rw [peek_eq_headD, h]; rfl

lemma peek_of_drop_nil (lx : Lexer) (h : lx.input.drop lx.pos = []) : peek lx = 0 := by
  rw [peek_eq_headD, h]; rfl

/-- `scan_delimiter` touches only the cursor: input, mark and result symbol
are unchanged. -/
lemma scan_delimiter_invar (d : List Nat) (lx : Lexer) :
    (scan_delimiter d lx).2.input = lx.input ∧
    (scan_delimiter d lx).2.marked = lx.marked ∧
    (scan_delimiter d lx).2.result = lx.result := by
  induction d generalizing lx with
  | nil => exact ⟨rfl, rfl, rfl⟩
  | cons c rest ih =>
    simp only [scan_delimiter]
    split
    · exact ih (next lx)
    · exact ⟨rfl, rfl, rfl⟩

/-! ### Claim C1: serialization round-trip -/

/-- Core round-trip fact shared by several claims: when the delimiter fits,
deserializing the serialized buffer restores the state exactly. -/
lemma roundtrip_aux (s : Scanner) (h : s.delimiter.length + 2 < BUFFER_SIZE) :
    deserialize (serialize s).2 (serialize s).1 = s := by
  obtain ⟨d, nd, ds, de⟩ := s
  simp only [BUFFER_SIZE] at h
  simp only [serialize, BUFFER_SIZE, if_neg (by omega : ¬ (1024 ≤ d.length + 2))]
  have hlen : deserializeLen (d.length + 3) = d.length := by
    simp only [deserializeLen]; omega
  simp only [deserialize, if_neg (by omega : ¬ (d.length + 3 = 0)), hlen]
  cases nd <;> cases ds <;> cases de <;> simp

/-- Claim C1: `serialize` returns 0 exactly when the delimiter does not fit in
the fixed serialization buffer; otherwise it returns `3 + delimiter.len` after
writing `is_nowdoc`, `did_start`, `did_end` at offsets 0-2 followed by the
delimiter bytes, and `deserialize` on that buffer and length restores an
observationally equal state; `deserialize` with length 0 resets all four
fields to zero/empty. -/
theorem serialize_roundtrip (s : Scanner) (buf : List Nat) :
    ((serialize s).1 = 0 ↔ BUFFER_SIZE ≤ s.delimiter.length + 2) ∧
    (s.delimiter.length + 2 < BUFFER_SIZE →
      (serialize s).1 = 3 + s.delimiter.length ∧
      (serialize s).2 = (if s.is_nowdoc then 1 else 0) ::
        (if s.did_start then 1 else 0) ::
        (if s.did_end then 1 else 0) :: s.delimiter ∧
      deserialize (serialize s).2 (serialize s).1 = s) ∧
    deserialize buf 0 = initScanner := by
  refine ⟨?_, fun h => ⟨?_, ?_, roundtrip_aux s h⟩, by simp [deserialize, initScanner]⟩
  · simp only [serialize]
    split
    · simpa using (by assumption)
    · simp only []
      constructor
      · intro h; omega
      · intro h; omega
  · simp only [serialize, if_neg (by omega : ¬ (BUFFER_SIZE ≤ s.delimiter.length + 2))]
    omega
  · simp only [serialize, if_neg (by omega : ¬ (BUFFER_SIZE ≤ s.delimiter.length + 2))]

/-- Witness for C1 at a concrete state. -/
theorem serialize_roundtrip_witness :
    deserialize (serialize ⟨[69, 79, 70], true, false, true⟩).2
        (serialize ⟨[69, 79, 70], true, false, true⟩).1
      = ⟨[69, 79, 70], true, false, true⟩ :=
  ((serialize_roundtrip ⟨[69, 79, 70], true, false, true⟩ []).2.1 (by norm_num [BUFFER_SIZE])).2.2

/-! ### Claim C10: serialize lengths and the unsigned subtraction in
deserialize -/

/-- Claim C10: every nonzero length returned by `serialize` is at least 3 (and
never 1 or 2); for lengths 0 or at least 3 the delimiter-length computation
`length - 3` of `deserialize` does not underflow, while for the lengths 1 and
2 the unsigned 32-bit subtraction wraps around to a value near `2^32`. -/
theorem serialize_len_deserialize_wrap :
    (∀ s : Scanner, (serialize s).1 ≠ 0 → 3 ≤ (serialize s).1) ∧
    (∀ s : Scanner, (serialize s).1 ≠ 1 ∧ (serialize s).1 ≠ 2) ∧
    (∀ len : Nat, 3 ≤ len → len < 2 ^ 32 → deserializeLen len = len - 3) ∧
    deserializeLen 1 = 2 ^ 32 - 2 ∧ deserializeLen 2 = 2 ^ 32 - 1 := by
  refine ⟨fun s h => ?_, fun s => ?_, fun len h1 h2 => ?_, ?_, ?_⟩
  · simp only [serialize] at h ⊢
    split at h
    · omega
    · split <;> omega
  · constructor <;> (simp only [serialize]; split <;> omega)
  · simp only [deserializeLen]; omega
  · simp only [deserializeLen]; omega
  · simp only [deserializeLen]; omega

/-- Witness for C10 at concrete inputs. -/
theorem serialize_len_deserialize_wrap_witness :
    3 ≤ (serialize ⟨[65], false, false, false⟩).1 ∧ deserializeLen 10 = 7 :=
  ⟨serialize_len_deserialize_wrap.1 ⟨[65], false, false, false⟩ (by decide),
   serialize_len_deserialize_wrap.2.2.1 10 (by omega) (by norm_num)⟩

/-! ### Claim C8: backslash escapes -/

/-- Claim C8: when the current character is a backslash, `scan_body` advances
past the backslash and the following character unconditionally (in nowdoc mode
as well) and marks body content as consumed (`did_advance = true`), so an
escaped `$` or `{` never begins an interpolation token: the loop re-enters
strictly after the escaped character. -/
theorem scan_body_backslash_step (fuel : Nat) (s : Scanner) (lx : Lexer) (da : Bool)
    (h : peek lx = 92) :
    scanBodyLoop (fuel + 1) s lx da = scanBodyLoop fuel s (next (next lx)) true := by
  simp only [scanBodyLoop]
  rw [if_neg (by omega), if_pos h]

/-- Witness for C8 at a concrete configuration (a nowdoc state, input
`\$a\n`). -/
theorem scan_body_backslash_step_witness :
    scanBodyLoop 4 ⟨[69], true, true, false⟩ ⟨[92, 36, 97, 10], 0, none, none⟩ false
      = scanBodyLoop 3 ⟨[69], true, true, false⟩
          (next (next ⟨[92, 36, 97, 10], 0, none, none⟩)) true :=
  scan_body_backslash_step 3 ⟨[69], true, true, false⟩ _ false (by decide)

/-! ### Claim C7: `$`-interpolation emits HEREDOC_BODY with result
`did_advance` -/

/-- Claim C7: when `scan_body` (in a non-nowdoc heredoc) reaches a `$` whose
next character starts an identifier, it sets the result to `HEREDOC_BODY`
with `mark_end` before the `$` (the token ends before the interpolation site)
and returns the current `did_advance` flag: the scan succeeds exactly when at
least one body byte was consumed earlier in the same invocation. -/
theorem scan_body_dollar_step (fuel : Nat) (s : Scanner) (lx : Lexer) (da : Bool)
    (hnd : s.is_nowdoc = false) (h36 : peek lx = 36)
    (hid : is_identifier_start_char (peek (next lx)) = true) :
    scanBodyLoop (fuel + 1) s lx da
      = some (da, s, set_result HEREDOC_BODY (next (stop lx))) := by
  have hg : (peek lx = 123 ∨ peek lx = 36) ∧ s.is_nowdoc = false := ⟨Or.inr h36, hnd⟩
  simp only [scanBodyLoop]
  rw [if_neg (by omega), if_neg (by omega), if_pos hg]
  have hib : interpBranch da lx
      = InterpStep.ibody (set_result HEREDOC_BODY (next (stop lx))) := by
    simp only [interpBranch, peek_stop]
    rw [if_neg (by omega : ¬ peek lx = 123)]
    simp only [interpDollar, peek_stop]
    rw [if_pos h36]
    have hps : peek (next (stop lx)) = peek (next lx) := rfl
    rw [hps, if_pos hid]
  rw [hib]

/-- Witness for C7: at input `$a` with `did_advance = false`, the scan sets
`HEREDOC_BODY` ending at position 0 and returns false. -/
theorem scan_body_dollar_step_witness :
    scanBodyLoop 3 ⟨[69], false, true, false⟩ ⟨[36, 97], 0, none, none⟩ false
      = some (false, ⟨[69], false, true, false⟩,
          ⟨[36, 97], 1, some 0, some HEREDOC_BODY⟩) :=
  scan_body_dollar_step 2 ⟨[69], false, true, false⟩ ⟨[36, 97], 0, none, none⟩ false
    rfl (by decide) (by decide)

/-! ### Counterexamples found against the spec -/

/-- Counterexample to claim C2: on the one-line heredoc `<<<EOF\nEOF;\n`, the
host-driven trace (scan the opener, then scan the body region) emits exactly
`HEREDOC_START` followed immediately by `HEREDOC_END` — `HEREDOC_END` is
emitted although none of `HEREDOC_START_NEWLINE`, `HEREDOC_BODY`,
`HEREDOC_END_NEWLINE` was ever emitted for this literal (the optimistic close
in `scan_start` sets `did_end` during the opener scan). -/
theorem heredoc_end_without_inner_token :
    runTrace initScanner
      [⟨fun t => t = HEREDOC_START, ⟨[69, 79, 70, 10, 69, 79, 70, 59, 10], 0, none, none⟩, 10⟩,
       ⟨fun t => t = HEREDOC_BODY ∨ t = HEREDOC_END,
        ⟨[69, 79, 70, 10, 69, 79, 70, 59, 10], 3, none, none⟩, 10⟩]
      = [HEREDOC_START, HEREDOC_END] := by decide

/-- Counterexample to claim C3: on the opener `EOF\n` (input
`EOF\nEOF;\n`, the host's grammar having consumed `<<<`), `scan_start`
succeeds and the final `mark_end` position is 3 — the index of the newline
itself — so the emitted `HEREDOC_START` token ends *before* the newline, not
after it as the claim states (the subsequent `next()` past the newline is
lookahead beyond the mark). -/
theorem heredoc_start_mark_at_newline :
    scan_start initScanner ⟨[69, 79, 70, 10, 69, 79, 70, 59, 10], 0, none, none⟩
      = (true, ⟨[69, 79, 70], false, false, true⟩,
         ⟨[69, 79, 70, 10, 69, 79, 70, 59, 10], 8, some 3, some HEREDOC_START⟩) := by
  decide

/-- Counterexample to claim C4: with delimiter `EOF`, `did_end` set and input
`\nEOF;\n`, `scan_body` emits `HEREDOC_END` with final `mark_end` position 4 —
immediately after the closing delimiter and *before* the `;` (input index 4)
and the newline (index 5) — so the token covers only the delimiter, not the
`;` and newline the claim includes. -/
theorem heredoc_end_mark_after_delimiter :
    scanBodyLoop 5 ⟨[69, 79, 70], false, true, true⟩
        ⟨[10, 69, 79, 70, 59, 10], 0, none, none⟩ false
      = some (true, initScanner,
         ⟨[10, 69, 79, 70, 59, 10], 5, some 4, some HEREDOC_END⟩) := by decide

/-- Counterexample to claim C5: on the input `\xFF\n` the claim's opener
grammar (first identifier character in `[_A-Za-z\x80-\xFF]`) accepts the
one-byte delimiter `\xFF`, but `scan_start` fails: `iswalpha` at the default
C locale accepts no byte in 0x80-0xFF, so bytes in that range are not
accepted anywhere in the delimiter. -/
theorem high_byte_delimiter_rejected :
    claimOpenerSpec [255, 10] = some ([255], false) ∧
    (scan_start initScanner ⟨[255, 10], 0, none, none⟩).1 = false := by decide

set_option maxRecDepth 16384 in
/-- Counterexample to claim C9's length bound: `scan_start` accepts a
256-character delimiter (256 `A`s followed by a newline) — the delimiter
buffer has no 255-byte length bound. -/
theorem delimiter_length_unbounded :
    (scan_start initScanner ⟨List.replicate 256 65 ++ [10], 0, none, none⟩).1 = true ∧
    (scan_start initScanner
        ⟨List.replicate 256 65 ++ [10], 0, none, none⟩).2.1.delimiter.length = 256 := by
  decide

/-! ### Inversion lemmas for the `scan_body` branches -/

lemma interpDollar_no_embox (lx lx1 : Lexer) : interpDollar lx ≠ InterpStep.embox lx1 := by
  simp only [interpDollar]
  split
  · split <;> simp
  · simp

/-- The interpolation branch produces `EMBEDDED_OPENING_BRACE` only at `{`
followed by `$` followed by an identifier start, with no body byte consumed
yet in this invocation. -/
lemma interpBranch_embox (da : Bool) (lx lx1 : Lexer)
    (h : interpBranch da lx = InterpStep.embox lx1) :
    peek lx = 123 ∧ peek (next lx) = 36 ∧ da = false ∧
    is_identifier_start_char (peek (next (next lx))) = true ∧
    lx1 = set_result EMBEDDED_OPENING_BRACE (next (stop (next (stop lx)))) := by
  simp only [interpBranch, peek_stop] at h
  split at h
  · rename_i h123
    split at h
    · rename_i h36
      split at h
      · rename_i hid
        have he := h
        simp only [InterpStep.embox.injEq] at he
        exact ⟨h123, h36.1, h36.2, hid, he.symm⟩
      · exact absurd h (interpDollar_no_embox _ _)
    · exact absurd h (interpDollar_no_embox _ _)
  · exact absurd h (interpDollar_no_embox _ _)

/-- The two emitting outcomes of the interpolation branch, with the scanner
state untouched: `embox` carries `EMBEDDED_OPENING_BRACE`, `ibody` carries
`HEREDOC_BODY`. -/
lemma interpBranch_results (da : Bool) (lx lx1 : Lexer) :
    (interpBranch da lx = InterpStep.embox lx1 →
      lx1.result = some EMBEDDED_OPENING_BRACE) ∧
    (interpBranch da lx = InterpStep.ibody lx1 → lx1.result = some HEREDOC_BODY) := by
  constructor
  · intro h
    obtain ⟨-, -, -, -, h5⟩ := interpBranch_embox da lx lx1 h
    rw [h5]; rfl
  · intro h
    simp only [interpBranch, interpDollar, peek_stop] at h
    split at h <;> [skip; skip] <;> first
      | (split at h
         · split at h
           · simp at h
           · split at h
             · split at h
               · simp only [InterpStep.ibody.injEq] at h; rw [← h]; rfl
               · simp at h
             · simp at h
         · split at h
           · split at h
             · simp only [InterpStep.ibody.injEq] at h; rw [← h]; rfl
             · simp at h
           · simp at h)
      | (split at h
         · split at h
           · simp only [InterpStep.ibody.injEq] at h; rw [← h]; rfl
           · simp at h
         · simp at h)

/-- Master inversion for the close-attempt branch: every return carries
`true`; the emitted token is `HEREDOC_END` (full state reset, `mark_end`
right after the matched delimiter, before any `;` and the newline),
`HEREDOC_BODY` or `HEREDOC_END_NEWLINE` (both setting `did_start` and
`did_end`), or `HEREDOC_START_NEWLINE` (setting `did_start`). -/
lemma closeAttempt_inl (s : Scanner) (da : Bool) (lx : Lexer) (r : Bool)
    (s' : Scanner) (lx' : Lexer)
    (h : closeAttempt s da lx = Sum.inl (r, s', lx')) :
    r = true ∧
    ((lx'.result = some HEREDOC_END ∧ s' = initScanner ∧ da = false ∧
        s.did_end = true ∧
        ∃ p, lx'.marked = some p ∧
          (lx'.input.getD p 0 = 59 ∧ lx'.input.getD (p + 1) 0 = 10 ∨
           lx'.input.getD p 0 = 10)) ∨
     (lx'.result = some HEREDOC_BODY ∧
        s' = { s with did_start := true, did_end := true }) ∨
     (lx'.result = some HEREDOC_END_NEWLINE ∧
        s' = { s with did_start := true, did_end := true }) ∨
     (lx'.result = some HEREDOC_START_NEWLINE ∧ s' = { s with did_start := true })) := by
  simp only [closeAttempt] at h
  split at h
  · -- scan_delimiter succeeded
    rename_i lxB hsd
    by_cases hC : da = false ∧ s.did_end = true
    · -- mark after the delimiter, then only HEREDOC_END can emit
      have hdan : ¬ da = true := by rw [hC.1]; simp
      rw [if_pos hC] at h
      by_cases h59 : peek (stop lxB) = 59
      · rw [if_pos h59] at h
        by_cases h10 : peek (next (stop lxB)) = 10
        · rw [if_pos h10, if_neg hdan, if_pos hC.2] at h
          simp only [Sum.inl.injEq, Prod.mk.injEq] at h
          obtain ⟨hr, hs, hl⟩ := h
          exact ⟨hr.symm, Or.inl ⟨by rw [← hl]; rfl, hs.symm, hC.1, hC.2,
            lxB.pos, by rw [← hl]; rfl,
            Or.inl ⟨by rw [← hl]; exact h59, by rw [← hl]; exact h10⟩⟩⟩
        · rw [if_neg h10] at h; exact absurd h (by simp)
      · rw [if_neg h59] at h
        by_cases h10 : peek (stop lxB) = 10
        · rw [if_pos h10, if_neg hdan, if_pos hC.2] at h
          simp only [Sum.inl.injEq, Prod.mk.injEq] at h
          obtain ⟨hr, hs, hl⟩ := h
          exact ⟨hr.symm, Or.inl ⟨by rw [← hl]; rfl, hs.symm, hC.1, hC.2,
            lxB.pos, by rw [← hl]; rfl, Or.inr (by rw [← hl]; exact h10)⟩⟩
        · rw [if_neg h10] at h; exact absurd h (by simp)
    · -- plain cursor: HEREDOC_BODY or HEREDOC_END_NEWLINE
      rw [if_neg hC] at h
      by_cases h59 : peek lxB = 59
      · rw [if_pos h59] at h
        by_cases h10 : peek (next lxB) = 10
        · rw [if_pos h10] at h
          by_cases hda : da = true
          · rw [if_pos hda] at h
            simp only [Sum.inl.injEq, Prod.mk.injEq] at h
            obtain ⟨hr, hs, hl⟩ := h
            exact ⟨hr.symm, Or.inr (Or.inl ⟨by rw [← hl]; rfl, hs.symm⟩)⟩
          · have hde : ¬ s.did_end = true := fun hd => hC ⟨by simpa using hda, hd⟩
            rw [if_neg hda, if_neg hde] at h
            simp only [Sum.inl.injEq, Prod.mk.injEq] at h
            obtain ⟨hr, hs, hl⟩ := h
            exact ⟨hr.symm, Or.inr (Or.inr (Or.inl ⟨by rw [← hl]; rfl, hs.symm⟩))⟩
        · rw [if_neg h10] at h; exact absurd h (by simp)
      · rw [if_neg h59] at h
        by_cases h10 : peek lxB = 10
        · rw [if_pos h10] at h
          by_cases hda : da = true
          · rw [if_pos hda] at h
            simp only [Sum.inl.injEq, Prod.mk.injEq] at h
            obtain ⟨hr, hs, hl⟩ := h
            exact ⟨hr.symm, Or.inr (Or.inl ⟨by rw [← hl]; rfl, hs.symm⟩)⟩
          · have hde : ¬ s.did_end = true := fun hd => hC ⟨by simpa using hda, hd⟩
            rw [if_neg hda, if_neg hde] at h
            simp only [Sum.inl.injEq, Prod.mk.injEq] at h
            obtain ⟨hr, hs, hl⟩ := h
            exact ⟨hr.symm, Or.inr (Or.inr (Or.inl ⟨by rw [← hl]; rfl, hs.symm⟩))⟩
        · rw [if_neg h10] at h; exact absurd h (by simp)
  · -- scan_delimiter failed: only HEREDOC_START_NEWLINE can emit
    by_cases hsn : s.did_start = false ∧ da = false
    · rw [if_pos hsn] at h
      simp only [Sum.inl.injEq, Prod.mk.injEq] at h
      obtain ⟨hr, hs, hl⟩ := h
      exact ⟨hr.symm, Or.inr (Or.inr (Or.inr ⟨by rw [← hl]; rfl, hs.symm⟩))⟩
    · rw [if_neg hsn] at h; exact absurd h (by simp)

/-- Forward computation of the `EMBEDDED_OPENING_BRACE` emission. -/
lemma interpBranch_embox_eq (lx : Lexer)
    (h123 : peek lx = 123) (h36 : peek (next lx) = 36)
    (hid : is_identifier_start_char (peek (next (next lx))) = true) :
    interpBranch false lx
      = InterpStep.embox
          (set_result EMBEDDED_OPENING_BRACE (next (stop (next (stop lx))))) := by
  simp only [interpBranch, peek_stop]
  rw [if_pos h123,
    if_pos (show peek (next (stop lx)) = 36 ∧ True from ⟨h36, trivial⟩),
    if_pos
      (show is_identifier_start_char (peek (next (stop (next (stop lx))))) = true from hid)]

/-- Forward computation of a whole `scan_body` invocation that immediately
emits `EMBEDDED_OPENING_BRACE`. -/
lemma scanBodyLoop_embox_eq (fuel : Nat) (s : Scanner) (lx : Lexer)
    (hnd : s.is_nowdoc = false) (h123 : peek lx = 123) (h36 : peek (next lx) = 36)
    (hid : is_identifier_start_char (peek (next (next lx))) = true) :
    scanBodyLoop (fuel + 1) s lx false
      = some (true, s,
          set_result EMBEDDED_OPENING_BRACE (next (stop (next (stop lx))))) := by
  simp only [scanBodyLoop]
  rw [if_neg (by omega), if_neg (by omega), if_pos ⟨Or.inl h123, hnd⟩,
    interpBranch_embox_eq lx h123 h36 hid]

/-- Once a body byte has been consumed in the current invocation
(`did_advance = true`), the loop can never emit `EMBEDDED_OPENING_BRACE`. -/
lemma scanBodyLoop_true_no_embox (fuel : Nat) (s : Scanner) (lx : Lexer)
    (r : Bool) (s' : Scanner) (lx' : Lexer)
    (h : scanBodyLoop fuel s lx true = some (r, s', lx')) (hr : r = true) :
    lx'.result ≠ some EMBEDDED_OPENING_BRACE := by
  induction fuel generalizing lx with
  | zero => simp [scanBodyLoop] at h
  | succ n ih =>
    simp only [scanBodyLoop] at h
    split at h
    · -- end of input: the scan fails
      simp only [Option.some.injEq, Prod.mk.injEq] at h
      rw [hr] at h
      exact absurd h.1 (by simp)
    · split at h
      · -- backslash
        exact ih _ h
      · -- interpolation guard
        split at h
        · -- inside: three outcomes of interpBranch
          split at h
          · rename_i lx1 heq
            obtain ⟨-, -, hda, -, -⟩ := interpBranch_embox true lx lx1 heq
            exact absurd hda (by simp)
          · rename_i lx1 heq
            simp only [Option.some.injEq, Prod.mk.injEq] at h
            rw [← h.2.2, (interpBranch_results true lx lx1).2 heq]
            simp
          · rename_i lx1 heq
            exact ih _ h
        · -- close-attempt guard
          split at h
          · split at h
            · rename_i res hca
              obtain ⟨r0, s0, lx0⟩ := res
              obtain ⟨-, hdisj⟩ := closeAttempt_inl s true lx r0 s0 lx0 hca
              simp only [Option.some.injEq, Prod.mk.injEq] at h
              obtain ⟨-, -, hlx⟩ := h
              rw [← hlx]
              rcases hdisj with ⟨h1, -⟩ | ⟨h1, -⟩ | ⟨h1, -⟩ | ⟨h1, -⟩ <;>
                (rw [h1]; simp)
            · rename_i lx1 hca
              exact ih _ h
          · exact ih _ h

/-- Claim C6: a `scan_body` invocation emits `EMBEDDED_OPENING_BRACE` if and
only if `is_nowdoc` is false, no byte has yet been consumed in this
invocation (the emission can only happen at the very first loop iteration,
since every `continue` sets `did_advance`), and the input at the cursor is
`{` followed by `$` followed by an identifier-start character. -/
theorem embedded_brace_iff (fuel : Nat) (s : Scanner) (lx : Lexer)
    (r : Bool) (s' : Scanner) (lx' : Lexer)
    (h : scan_body (fuel + 1) s lx = some (r, s', lx')) :
    (r = true ∧ lx'.result = some EMBEDDED_OPENING_BRACE) ↔
      (s.is_nowdoc = false ∧ peek lx = 123 ∧ peek (next lx) = 36 ∧
        is_identifier_start_char (peek (next (next lx))) = true) := by
  constructor
  · rintro ⟨hr, hres⟩
    simp only [scan_body, scanBodyLoop] at h
    split at h
    · simp only [Option.some.injEq, Prod.mk.injEq] at h
      rw [hr] at h
      exact absurd h.1 (by simp)
    · split at h
      · -- backslash: did_advance becomes true, no EMBEDDED possible
        exact absurd hres (scanBodyLoop_true_no_embox _ _ _ _ _ _ h hr)
      · split at h
        · rename_i hguard
          split at h
          · rename_i lx1 heq
            obtain ⟨h123, h36, -, hid, -⟩ := interpBranch_embox false lx lx1 heq
            exact ⟨hguard.2, h123, h36, hid⟩
          · rename_i lx1 heq
            simp only [Option.some.injEq, Prod.mk.injEq] at h
            rw [← h.2.2, (interpBranch_results false lx lx1).2 heq] at hres
            exact absurd hres (by simp)
          · rename_i lx1 heq
            exact absurd hres (scanBodyLoop_true_no_embox _ _ _ _ _ _ h hr)
        · split at h
          · split at h
            · rename_i res hca
              obtain ⟨r0, s0, lx0⟩ := res
              obtain ⟨-, hdisj⟩ := closeAttempt_inl s false lx r0 s0 lx0 hca
              simp only [Option.some.injEq, Prod.mk.injEq] at h
              obtain ⟨-, -, hlx⟩ := h
              rw [← hlx] at hres
              rcases hdisj with ⟨h1, -⟩ | ⟨h1, -⟩ | ⟨h1, -⟩ | ⟨h1, -⟩ <;>
                (rw [h1] at hres; exact absurd hres (by simp))
            · rename_i lx1 hca
              exact absurd hres (scanBodyLoop_true_no_embox _ _ _ _ _ _ h hr)
          · exact absurd hres (scanBodyLoop_true_no_embox _ _ _ _ _ _ h hr)
  · rintro ⟨hnd, h123, h36, hid⟩
    rw [scan_body, scanBodyLoop_embox_eq fuel s lx hnd h123 h36 hid] at h
    simp only [Option.some.injEq, Prod.mk.injEq] at h
    exact ⟨h.1.symm, by rw [← h.2.2]; rfl⟩

/-- Witness for C6 at the concrete input `{$a` with a pending delimiter. -/
theorem embedded_brace_iff_witness :
    (true = true ∧
        (Lexer.mk [123, 36, 97] 2 (some 1) (some EMBEDDED_OPENING_BRACE)).result
          = some EMBEDDED_OPENING_BRACE) ↔
      ((⟨[70], false, false, false⟩ : Scanner).is_nowdoc = false ∧
        peek ⟨[123, 36, 97], 0, none, none⟩ = 123 ∧
        peek (next ⟨[123, 36, 97], 0, none, none⟩) = 36 ∧
        is_identifier_start_char
          (peek (next (next ⟨[123, 36, 97], 0, none, none⟩))) = true) :=
  embedded_brace_iff 0 ⟨[70], false, false, false⟩ ⟨[123, 36, 97], 0, none, none⟩
    true ⟨[70], false, false, false⟩
    (Lexer.mk [123, 36, 97] 2 (some 1) (some EMBEDDED_OPENING_BRACE)) (by decide)

/-- State evolution of a successful `scan_body`: either it emits
`HEREDOC_END` and fully resets the state, or the delimiter is untouched and
the emitted token is neither `HEREDOC_START` nor `HEREDOC_END`. -/
lemma scanBody_state (fuel : Nat) (s : Scanner) (lx : Lexer) (da r : Bool)
    (s' : Scanner) (lx' : Lexer)
    (h : scanBodyLoop fuel s lx da = some (r, s', lx')) (hr : r = true) :
    (lx'.result = some HEREDOC_END ∧ s' = initScanner) ∨
    (s'.delimiter = s.delimiter ∧
      ∃ t, lx'.result = some t ∧ t ≠ HEREDOC_START ∧ t ≠ HEREDOC_END) := by
  induction fuel generalizing lx da with
  | zero => simp [scanBodyLoop] at h
  | succ n ih =>
    simp only [scanBodyLoop] at h
    split at h
    · simp only [Option.some.injEq, Prod.mk.injEq] at h
      rw [hr] at h
      exact absurd h.1 (by simp)
    · split at h
      · exact ih _ _ h
      · split at h
        · split at h
          · rename_i lx1 heq
            simp only [Option.some.injEq, Prod.mk.injEq] at h
            refine Or.inr ⟨by rw [← h.2.1], EMBEDDED_OPENING_BRACE, ?_, by simp, by simp⟩
            rw [← h.2.2]
            exact (interpBranch_results da lx lx1).1 heq
          · rename_i lx1 heq
            simp only [Option.some.injEq, Prod.mk.injEq] at h
            refine Or.inr ⟨by rw [← h.2.1], HEREDOC_BODY, ?_, by simp, by simp⟩
            rw [← h.2.2]
            exact (interpBranch_results da lx lx1).2 heq
          · exact ih _ _ h
        · split at h
          · split at h
            · rename_i res hca
              obtain ⟨r0, s0, lx0⟩ := res
              obtain ⟨-, hdisj⟩ := closeAttempt_inl s da lx r0 s0 lx0 hca
              simp only [Option.some.injEq, Prod.mk.injEq] at h
              obtain ⟨-, hs, hlx⟩ := h
              rcases hdisj with ⟨h1, h2, -⟩ | ⟨h1, h2⟩ | ⟨h1, h2⟩ | ⟨h1, h2⟩
              · exact Or.inl ⟨by rw [← hlx]; exact h1, by rw [← hs]; exact h2⟩
              · exact Or.inr ⟨by rw [← hs, h2], HEREDOC_BODY,
                  by rw [← hlx]; exact h1, by simp, by simp⟩
              · exact Or.inr ⟨by rw [← hs, h2], HEREDOC_END_NEWLINE,
                  by rw [← hlx]; exact h1, by simp, by simp⟩
              · exact Or.inr ⟨by rw [← hs, h2], HEREDOC_START_NEWLINE,
                  by rw [← hlx]; exact h1, by simp, by simp⟩
            · rename_i lx1 hca
              exact ih _ _ h
          · exact ih _ _ h

/-- The delimiter after any `scan_body` invocation (successful or not) is
either untouched or cleared. -/
lemma scanBody_delim (fuel : Nat) (s : Scanner) (lx : Lexer) (da r : Bool)
    (s' : Scanner) (lx' : Lexer)
    (h : scanBodyLoop fuel s lx da = some (r, s', lx')) :
    s'.delimiter = s.delimiter ∨ s'.delimiter = [] := by
  induction fuel generalizing lx da with
  | zero => simp [scanBodyLoop] at h
  | succ n ih =>
    simp only [scanBodyLoop] at h
    split at h
    · simp only [Option.some.injEq, Prod.mk.injEq] at h
      exact Or.inl (by rw [← h.2.1])
    · split at h
      · exact ih _ _ h
      · split at h
        · split at h
          · simp only [Option.some.injEq, Prod.mk.injEq] at h
            exact Or.inl (by rw [← h.2.1])
          · simp only [Option.some.injEq, Prod.mk.injEq] at h
            exact Or.inl (by rw [← h.2.1])
          · exact ih _ _ h
        · split at h
          · split at h
            · rename_i res hca
              obtain ⟨r0, s0, lx0⟩ := res
              obtain ⟨-, hdisj⟩ := closeAttempt_inl s da lx r0 s0 lx0 hca
              simp only [Option.some.injEq, Prod.mk.injEq] at h
              obtain ⟨-, hs, -⟩ := h
              rcases hdisj with ⟨-, h2, -⟩ | ⟨-, h2⟩ | ⟨-, h2⟩ | ⟨-, h2⟩ <;>
                rw [← hs, h2]
              · exact Or.inr rfl
              · exact Or.inl rfl
              · exact Or.inl rfl
              · exact Or.inl rfl
            · rename_i lx1 hca
              exact ih _ _ h
          · exact ih _ _ h

/-- Helper for C4: whenever the body loop returns successfully with result
`HEREDOC_END`, the recorded `mark_end` position sits on the `;` (followed by
the newline) or directly on the newline after the closing delimiter. -/
lemma scanBodyLoop_end_marked (fuel : Nat) (s : Scanner) (lx : Lexer) (da r : Bool)
    (s' : Scanner) (lx' : Lexer)
    (h : scanBodyLoop fuel s lx da = some (r, s', lx')) (hr : r = true)
    (hres : lx'.result = some HEREDOC_END) :
    ∃ p, lx'.marked = some p ∧
      (lx'.input.getD p 0 = 59 ∧ lx'.input.getD (p + 1) 0 = 10 ∨
       lx'.input.getD p 0 = 10) := by
  induction fuel generalizing lx da with
  | zero => simp [scanBodyLoop] at h
  | succ n ih =>
    simp only [scanBodyLoop] at h
    split at h
    · simp only [Option.some.injEq, Prod.mk.injEq] at h
      rw [hr] at h
      exact absurd h.1 (by simp)
    · split at h
      · exact ih _ _ h
      · split at h
        · split at h
          · rename_i lx1 heq
            simp only [Option.some.injEq, Prod.mk.injEq] at h
            rw [← h.2.2, (interpBranch_results da lx lx1).1 heq] at hres
            exact absurd hres (by simp)
          · rename_i lx1 heq
            simp only [Option.some.injEq, Prod.mk.injEq] at h
            rw [← h.2.2, (interpBranch_results da lx lx1).2 heq] at hres
            exact absurd hres (by simp)
          · exact ih _ _ h
        · split at h
          · split at h
            · rename_i res hca
              obtain ⟨r0, s0, lx0⟩ := res
              obtain ⟨-, hdisj⟩ := closeAttempt_inl s da lx r0 s0 lx0 hca
              simp only [Option.some.injEq, Prod.mk.injEq] at h
              obtain ⟨-, -, hlx⟩ := h
              rw [← hlx] at hres ⊢
              rcases hdisj with ⟨-, -, -, -, hmark⟩ | ⟨h1, -⟩ | ⟨h1, -⟩ | ⟨h1, -⟩
              · exact hmark
              · rw [h1] at hres; exact absurd hres (by simp)
              · rw [h1] at hres; exact absurd hres (by simp)
              · rw [h1] at hres; exact absurd hres (by simp)
            · rename_i lx1 hca
              exact ih _ _ h
          · exact ih _ _ h

/-- Claim C4 (amended): when `scan_body` emits `HEREDOC_END` (no body bytes
consumed in this invocation and `did_end` set by a previous scan), the final
`mark_end` position lies immediately after the closing delimiter — on the
trailing `;` when present, otherwise on the newline — so the token covers
only the closing delimiter and excludes the `;` and the newline. -/
theorem heredoc_end_token_extent (fuel : Nat) (s : Scanner) (lx : Lexer) (r : Bool)
    (s' : Scanner) (lx' : Lexer)
    (h : scan_body fuel s lx = some (r, s', lx')) (hr : r = true)
    (hres : lx'.result = some HEREDOC_END) :
    ∃ p, lx'.marked = some p ∧
      (lx'.input.getD p 0 = 59 ∧ lx'.input.getD (p + 1) 0 = 10 ∨
       lx'.input.getD p 0 = 10) :=
  scanBodyLoop_end_marked fuel s lx false r s' lx' h hr hres

/-- Witness for the amended C4 at the concrete counterexample input. -/
theorem heredoc_end_token_extent_witness :
    ∃ p, (Lexer.mk [10, 69, 79, 70, 59, 10] 5 (some 4) (some HEREDOC_END)).marked
        = some p ∧
      ((Lexer.mk [10, 69, 79, 70, 59, 10] 5 (some 4) (some HEREDOC_END)).input.getD p 0
          = 59 ∧
        (Lexer.mk [10, 69, 79, 70, 59, 10] 5 (some 4)
              (some HEREDOC_END)).input.getD (p + 1) 0 = 10 ∨
        (Lexer.mk [10, 69, 79, 70, 59, 10] 5 (some 4)
            (some HEREDOC_END)).input.getD p 0 = 10) :=
  heredoc_end_token_extent 5 ⟨[69, 79, 70], false, true, true⟩
    ⟨[10, 69, 79, 70, 59, 10], 0, none, none⟩ true initScanner
    (Lexer.mk [10, 69, 79, 70, 59, 10] 5 (some 4) (some HEREDOC_END))
    (by decide) rfl rfl

/-- Success condition of the tail of `scan_start`, together with everything a
successful return guarantees: the result symbol is `HEREDOC_START`, delimiter
and `is_nowdoc` are carried over, and `mark_end` sits exactly on the
newline. -/
lemma scan_start_close_true (s : Scanner) (lx : Lexer) (r : Bool) (s' : Scanner)
    (lx' : Lexer) (h : scan_start_close s lx = (r, s', lx')) (hr : r = true) :
    lx'.result = some HEREDOC_START ∧ s'.delimiter = s.delimiter ∧
    s'.is_nowdoc = s.is_nowdoc ∧ s.delimiter ≠ [] ∧ peek lx = 10 ∧
    ∃ p, lx'.marked = some p ∧ lx'.input.getD p 0 = 10 := by
  simp only [scan_start_close] at h
  split at h
  · rename_i hg
    split at h
    · -- optimistic delimiter match succeeded
      rename_i lxB hsd
      have hinv := scan_delimiter_invar s.delimiter
        (next (stop (set_result HEREDOC_START lx)))
      rw [hsd] at hinv
      obtain ⟨hin, hmk, hrs⟩ := hinv
      by_cases h59 : peek lxB = 59
      · rw [if_pos h59] at h
        by_cases h10b : peek (next lxB) = 10
        · rw [if_pos h10b] at h
          simp only [Prod.mk.injEq] at h
          obtain ⟨-, hs', hl'⟩ := h
          exact ⟨by rw [← hl']; exact hrs, by rw [← hs'], by rw [← hs'],
            hg.2, hg.1, lx.pos, by rw [← hl']; exact hmk,
            by rw [← hl']; show lxB.input.getD lx.pos 0 = 10; rw [hin]; exact hg.1⟩
        · rw [if_neg h10b] at h
          simp only [Prod.mk.injEq] at h
          obtain ⟨-, hs', hl'⟩ := h
          exact ⟨by rw [← hl']; exact hrs, by rw [← hs'], by rw [← hs'],
            hg.2, hg.1, lx.pos, by rw [← hl']; exact hmk,
            by rw [← hl']; show lxB.input.getD lx.pos 0 = 10; rw [hin]; exact hg.1⟩
      · rw [if_neg h59] at h
        by_cases h10b : peek lxB = 10
        · rw [if_pos h10b] at h
          simp only [Prod.mk.injEq] at h
          obtain ⟨-, hs', hl'⟩ := h
          exact ⟨by rw [← hl']; exact hrs, by rw [← hs'], by rw [← hs'],
            hg.2, hg.1, lx.pos, by rw [← hl']; exact hmk,
            by rw [← hl']; show lxB.input.getD lx.pos 0 = 10; rw [hin]; exact hg.1⟩
        · rw [if_neg h10b] at h
          simp only [Prod.mk.injEq] at h
          obtain ⟨-, hs', hl'⟩ := h
          exact ⟨by rw [← hl']; exact hrs, by rw [← hs'], by rw [← hs'],
            hg.2, hg.1, lx.pos, by rw [← hl']; exact hmk,
            by rw [← hl']; show lxB.input.getD lx.pos 0 = 10; rw [hin]; exact hg.1⟩
    · -- optimistic delimiter match failed
      rename_i lxB hsd
      have hinv := scan_delimiter_invar s.delimiter
        (next (stop (set_result HEREDOC_START lx)))
      rw [hsd] at hinv
      obtain ⟨hin, hmk, hrs⟩ := hinv
      simp only [Prod.mk.injEq] at h
      obtain ⟨-, hs', hl'⟩ := h
      exact ⟨by rw [← hl']; exact hrs, by rw [← hs'], by rw [← hs'],
        hg.2, hg.1, lx.pos, by rw [← hl']; exact hmk,
        by rw [← hl']; show lxB.input.getD lx.pos 0 = 10; rw [hin]; exact hg.1⟩
  · simp only [Prod.mk.injEq] at h
    rw [hr] at h
    exact absurd h.1 (by simp)

/-- A successful `scan_start` emits `HEREDOC_START`, leaves a non-empty
delimiter, and marks the token end exactly on the newline that terminates the
opener. -/
lemma scan_start_true (s : Scanner) (lx : Lexer) (r : Bool) (s' : Scanner)
    (lx' : Lexer) (h : scan_start s lx = (r, s', lx')) (hr : r = true) :
    lx'.result = some HEREDOC_START ∧ s'.delimiter ≠ [] ∧
    ∃ p, lx'.marked = some p ∧ lx'.input.getD p 0 = 10 := by
  simp only [scan_start] at h
  split at h
  · -- quoted opener
    split at h
    · obtain ⟨h1, h2, -, h4, -, h6⟩ := scan_start_close_true _ _ _ _ _ h hr
      exact ⟨h1, by rw [h2]; exact h4, h6⟩
    · split at h
      · simp only [Prod.mk.injEq] at h
        rw [hr] at h
        exact absurd h.1 (by simp)
      · obtain ⟨h1, h2, -, h4, -, h6⟩ := scan_start_close_true _ _ _ _ _ h hr
        exact ⟨h1, by rw [h2]; exact h4, h6⟩
  · -- bare opener
    split at h
    · obtain ⟨h1, h2, -, h4, -, h6⟩ := scan_start_close_true _ _ _ _ _ h hr
      exact ⟨h1, by rw [h2]; exact h4, h6⟩
    · split at h
      · simp only [Prod.mk.injEq] at h
        rw [hr] at h
        exact absurd h.1 (by simp)
      · obtain ⟨h1, h2, -, h4, -, h6⟩ := scan_start_close_true _ _ _ _ _ h hr
        exact ⟨h1, by rw [h2]; exact h4, h6⟩

/-- Classification of every successful `scan` (dispatcher level): it came
from `scan_body` with a pending delimiter, or from `scan_start` emitting
`HEREDOC_START`. -/
lemma scan_true_cases (fuel : Nat) (s : Scanner) (lx : Lexer)
    (e : TokenType → Bool) (r : Bool) (s1 : Scanner) (lx1 : Lexer)
    (h : scan fuel s lx e = some (r, s1, lx1)) (hr : r = true) :
    (s.delimiter ≠ [] ∧
      ((lx1.result = some HEREDOC_END ∧ s1 = initScanner) ∨
       (s1.delimiter = s.delimiter ∧
         ∃ t, lx1.result = some t ∧ t ≠ HEREDOC_START ∧ t ≠ HEREDOC_END))) ∨
    (lx1.result = some HEREDOC_START ∧ s1.delimiter ≠ []) := by
  simp only [scan] at h
  split at h
  · rename_i hg
    refine Or.inl ⟨?_, scanBody_state fuel s lx false r s1 lx1 h hr⟩
    intro hnil
    rw [hnil] at hg
    simp at hg
  · split at h
    · rw [Option.some.injEq] at h
      obtain ⟨ha, hb, -⟩ := scan_start_true s lx r s1 lx1 h hr
      exact Or.inr ⟨ha, hb⟩
    · simp only [Option.some.injEq, Prod.mk.injEq] at h
      rw [hr] at h
      exact absurd h.1 (by simp)

lemma endsBracketed_cons_other (t : TokenType) (l : List TokenType) (o : Bool)
    (h1 : t ≠ HEREDOC_START) (h2 : t ≠ HEREDOC_END) :
    endsBracketed (t :: l) o = endsBracketed l o := by
  cases t <;> first
    | rfl
    | exact absurd rfl h1
    | exact absurd rfl h2

/-- Trace invariant: starting from a state whose non-empty delimiter implies
an open bracket flag, every reachable emission stream is properly
bracketed. -/
lemma trace_inv (trace : List HostStep) (s : Scanner) (opened : Bool)
    (hinv : s.delimiter ≠ [] → opened = true) :
    endsBracketed (runTrace s trace) opened = true := by
  induction trace generalizing s opened with
  | nil => rfl
  | cons step rest ih =>
    simp only [runTrace]
    split
    · rename_i s1 lx1 hscan
      split
      · rename_i t hres
        rcases scan_true_cases step.fuel s step.lx step.expected true s1 lx1 hscan rfl
          with ⟨hne, ⟨hend, hs1⟩ | ⟨hdelim, t', ht', hns, hne'⟩⟩ | ⟨hstart, hs1⟩
        · -- HEREDOC_END emitted
          rw [hres] at hend
          have ht : t = HEREDOC_END := by
            rw [Option.some.injEq] at hend
            exact hend
          rw [ht]
          simp only [endsBracketed]
          rw [hinv hne, Bool.true_and]
          refine ih s1 false (fun habs => ?_)
          rw [hs1] at habs
          exact absurd rfl habs
        · -- a non-START, non-END token
          rw [hres] at ht'
          have ht : t = t' := by rw [Option.some.injEq] at ht'; exact ht'
          rw [ht, endsBracketed_cons_other t' _ opened hns hne']
          refine ih s1 opened (fun hne2 => hinv ?_)
          rw [hdelim] at hne2
          exact hne2
        · -- HEREDOC_START emitted
          rw [hres] at hstart
          have ht : t = HEREDOC_START := by
            rw [Option.some.injEq] at hstart
            exact hstart
          rw [ht]
          simp only [endsBracketed]
          exact ih s1 true (fun _ => rfl)
      · rename_i hres
        rcases scan_true_cases step.fuel s step.lx step.expected true s1 lx1 hscan rfl
          with ⟨-, ⟨hend, -⟩ | ⟨-, t', ht', -, -⟩⟩ | ⟨hstart, -⟩
        · rw [hres] at hend; exact absurd hend (by simp)
        · rw [hres] at ht'; exact absurd ht' (by simp)
        · rw [hres] at hstart; exact absurd hstart (by simp)
    · exact ih s opened hinv

/-- Claim C2 (amended): in every host-driven sequence of scans from the
initial state, the emitted stream is properly bracketed: every `HEREDOC_END`
is covered by a `HEREDOC_START` emitted since the previous `HEREDOC_END` (so
`HEREDOC_END` is emitted at most once per literal and never before that
literal's `HEREDOC_START`).  `HEREDOC_END` may however be emitted with none
of `HEREDOC_START_NEWLINE`, `HEREDOC_BODY`, `HEREDOC_END_NEWLINE` in between
(one-line heredocs, see the counterexample). -/
theorem heredoc_end_bracketed (trace : List HostStep) :
    endsBracketed (runTrace initScanner trace) false = true :=
  trace_inv trace initScanner false (fun habs => absurd rfl habs)

/-- Claim C3 (amended): whenever `scan_start` succeeds, the final `mark_end`
position recorded for the emitted `HEREDOC_START` token sits exactly on the
first newline after the delimiter: the token covers the opener up to but
*excluding* that newline (the `next()` past it is lookahead beyond the
mark). -/
theorem heredoc_start_token_extent (s : Scanner) (lx : Lexer) (r : Bool)
    (s' : Scanner) (lx' : Lexer) (h : scan_start s lx = (r, s', lx'))
    (hr : r = true) :
    lx'.result = some HEREDOC_START ∧
    ∃ p, lx'.marked = some p ∧ lx'.input.getD p 0 = 10 := by
  obtain ⟨h1, -, h3⟩ := scan_start_true s lx r s' lx' h hr
  exact ⟨h1, h3⟩

/-- Witness for the amended C3 at the concrete input `EOF\nEOF;\n`. -/
theorem heredoc_start_token_extent_witness :
    (Lexer.mk [69, 79, 70, 10, 69, 79, 70, 59, 10] 8 (some 3)
        (some HEREDOC_START)).result = some HEREDOC_START ∧
    ∃ p, (Lexer.mk [69, 79, 70, 10, 69, 79, 70, 59, 10] 8 (some 3)
        (some HEREDOC_START)).marked = some p ∧
      (Lexer.mk [69, 79, 70, 10, 69, 79, 70, 59, 10] 8 (some 3)
          (some HEREDOC_START)).input.getD p 0 = 10 :=
  heredoc_start_token_extent initScanner
    ⟨[69, 79, 70, 10, 69, 79, 70, 59, 10], 0, none, none⟩ true
    ⟨[69, 79, 70], false, false, true⟩
    (Lexer.mk [69, 79, 70, 10, 69, 79, 70, 59, 10] 8 (some 3) (some HEREDOC_START))
    (by decide) rfl

/-! ### Claim C9: the delimiter contents invariant -/

lemma goodDelim_identScan (l : List Nat) : goodDelim (identScan l) := by
  induction l with
  | nil => intro c hc; simp [identScan] at hc
  | cons a tl ih =>
    intro c hc
    simp only [identScan] at hc
    split at hc
    · rename_i ha
      rcases List.mem_cons.mp hc with rfl | hmem
      · simp only [Bool.or_eq_true] at ha
        rcases ha with h | h
        · exact Or.inl h
        · exact Or.inr (by simpa using h)
      · exact ih c hmem
    · simp at hc

lemma goodDelim_scan_ident (lx : Lexer) : goodDelim (scan_ident lx).1 := by
  simp only [scan_ident]
  split
  · rename_i hstart
    intro c hc
    rcases List.mem_cons.mp hc with rfl | hmem
    · simp only [Bool.or_eq_true] at hstart
      rcases hstart with h | h
      · exact Or.inl (by simp [iswalnum, h])
      · exact Or.inr (by simpa using h)
    · exact goodDelim_identScan _ c hmem
  · intro c hc; simp at hc

lemma scan_start_close_delim (s : Scanner) (lx : Lexer) :
    ((scan_start_close s lx).2.1).delimiter = s.delimiter := by
  simp only [scan_start_close]
  repeat' split
  all_goals rfl

lemma scan_start_goodDelim (s : Scanner) (lx : Lexer) :
    goodDelim ((scan_start s lx).2.1.delimiter) := by
  simp only [scan_start]
  repeat' split
  all_goals first
    | (rw [scan_start_close_delim]; exact goodDelim_scan_ident _)
    | exact goodDelim_scan_ident _

/-- Claim C9 (amended): in every reachable state the delimiter buffer holds
only ASCII letters, digits and underscores, and `scan_start`, `scan_body`,
and a serialize/deserialize round trip preserve this; `deserialize` with
length 0 trivially restores it.  There is however no 255-byte length bound
(see the counterexample): the buffer grows on demand. -/
theorem delimiter_ascii_invariant :
    (∀ (s : Scanner) (lx : Lexer), goodDelim ((scan_start s lx).2.1.delimiter)) ∧
    (∀ (fuel : Nat) (s : Scanner) (lx : Lexer) (da r : Bool) (s' : Scanner)
        (lx' : Lexer), scanBodyLoop fuel s lx da = some (r, s', lx') →
      goodDelim s.delimiter → goodDelim s'.delimiter) ∧
    (∀ s : Scanner, goodDelim s.delimiter → s.delimiter.length + 2 < BUFFER_SIZE →
      goodDelim ((deserialize (serialize s).2 (serialize s).1).delimiter)) ∧
    (∀ buf : List Nat, goodDelim ((deserialize buf 0).delimiter)) := by
  refine ⟨fun s lx => scan_start_goodDelim s lx, ?_, fun s h1 h2 => ?_, fun buf => ?_⟩
  · intro fuel s lx da r s' lx' h hgood
    rcases scanBody_delim fuel s lx da r s' lx' h with heq | hnil
    · rw [heq]; exact hgood
    · rw [hnil]; intro c hc; simp at hc
  · rw [roundtrip_aux s h2]; exact h1
  · simp only [deserialize, if_pos rfl]
    intro c hc
    simp at hc

/-- Witness for the amended C9 at concrete inputs. -/
theorem delimiter_ascii_invariant_witness :
    goodDelim ((scan_start initScanner ⟨[69, 10], 0, none, none⟩).2.1.delimiter) ∧
    goodDelim ((deserialize (serialize ⟨[69], false, false, false⟩).2
        (serialize ⟨[69], false, false, false⟩).1).delimiter) :=
  ⟨delimiter_ascii_invariant.1 initScanner ⟨[69, 10], 0, none, none⟩,
   delimiter_ascii_invariant.2.2.1 ⟨[69], false, false, false⟩
     (by unfold goodDelim; decide)
     (by norm_num [BUFFER_SIZE])⟩

/-! ### Claim C5: characterization of `scan_start` -/

lemma specIdentStart_eq (c : Nat) : specIdentStart c = (iswalpha c || c == 95) := by
  rw [Bool.eq_iff_iff]
  simp only [specIdentStart, iswalpha, Bool.or_eq_true, Bool.and_eq_true]
  tauto

lemma claimIdentCont_eq (c : Nat) : claimIdentCont c = (iswalnum c || c == 95) := by
  rw [Bool.eq_iff_iff]
  simp only [claimIdentCont, iswalnum, iswalpha, iswdigit, Bool.or_eq_true,
    Bool.and_eq_true]
  tauto

lemma wsCount_drop (l : List Nat) : l.drop (wsCount l) = l.dropWhile iswspace := by
  induction l with
  | nil => rfl
  | cons c tl ih =>
    by_cases hws : iswspace c = true
    · rw [wsCount, if_pos hws, List.dropWhile_cons_of_pos hws, List.drop_succ_cons]
      exact ih
    · rw [wsCount, if_neg hws, List.dropWhile_cons_of_neg hws, List.drop_zero]

lemma skipWs_drop (lx : Lexer) :
    (skipWs lx).input.drop (skipWs lx).pos
      = (lx.input.drop lx.pos).dropWhile iswspace := by
  show lx.input.drop (lx.pos + wsCount (lx.input.drop lx.pos)) = _
  rw [← List.drop_drop, wsCount_drop]

lemma identScan_eq_takeWhile (l : List Nat) :
    identScan l = l.takeWhile claimIdentCont := by
  induction l with
  | nil => rfl
  | cons c tl ih =>
    rw [identScan, List.takeWhile_cons]
    by_cases hc : (iswalnum c || c == 95) = true
    · rw [if_pos hc, if_pos (by rw [claimIdentCont_eq]; exact hc), ih]
    · rw [if_neg hc, if_neg (by rw [claimIdentCont_eq]; exact hc)]

lemma scan_ident_spec (lx : Lexer) :
    scan_ident lx
      = (specTakeIdent specIdentStart claimIdentCont (lx.input.drop lx.pos),
         { lx with pos := lx.pos +
             (specTakeIdent specIdentStart claimIdentCont
               (lx.input.drop lx.pos)).length }) := by
  cases hm : lx.input.drop lx.pos with
  | nil =>
    have hpk : peek lx = 0 := peek_of_drop_nil lx hm
    rw [scan_ident, if_neg (by rw [hpk]; decide)]
    simp only [specTakeIdent, List.length_nil, Nat.add_zero]
  | cons c tl =>
    have hpk : peek lx = c := peek_of_drop lx c tl hm
    have htl : lx.input.drop (lx.pos + 1) = tl := drop_next_of_cons lx c tl hm
    by_cases hst : specIdentStart c = true
    · have hst' : (iswalpha (peek lx) || peek lx == 95) = true := by
        rw [hpk, ← specIdentStart_eq]; exact hst
      rw [scan_ident, if_pos hst', htl, identScan_eq_takeWhile, hpk,
        specTakeIdent, if_pos hst]
      simp only [Prod.mk.injEq, List.length_cons, true_and]
      congr 1
      omega
    · have hst' : ¬ (iswalpha (peek lx) || peek lx == 95) = true := by
        rw [hpk, ← specIdentStart_eq]; exact hst
      rw [scan_ident, if_neg hst', specTakeIdent, if_neg hst]
      simp only [List.length_nil, Nat.add_zero]

lemma scan_start_close_fst (s : Scanner) (lx : Lexer) :
    ((scan_start_close s lx).1 = true) ↔ (peek lx = 10 ∧ s.delimiter ≠ []) := by
  constructor
  · intro h
    rw [scan_start_close] at h
    split at h
    · assumption
    · exact absurd h (by simp)
  · intro hg
    simp only [scan_start_close]
    rw [if_pos hg]
    repeat' split
    all_goals rfl

lemma scan_start_close_nowdoc (s : Scanner) (lx : Lexer) :
    ((scan_start_close s lx).2.1).is_nowdoc = s.is_nowdoc := by
  simp only [scan_start_close]
  repeat' split
  all_goals rfl

lemma if_bool_true {α : Sort _} (a b : α) : (if (true : Bool) = true then a else b) = a := rfl

lemma if_bool_false {α : Sort _} (a b : α) : (if (false : Bool) = true then a else b) = b := rfl

lemma drop_pos_add (X : Lexer) (k : Nat) :
    X.input.drop (X.pos + k) = (X.input.drop X.pos).drop k :=
  (List.drop_drop k X.pos X.input).symm

lemma scan_start_obs (s : Scanner) (lx : Lexer) (hnul : ∀ c ∈ lx.input, c ≠ 0) :
    (if (scan_start s lx).1 = true
      then some ((scan_start s lx).2.1.delimiter, (scan_start s lx).2.1.is_nowdoc)
      else none)
      = openerSpec (lx.input.drop lx.pos) := by
  have hnul1 : ∀ c ∈ (lx.input.drop lx.pos).dropWhile iswspace, c ≠ 0 := fun c hc =>
    hnul c (List.Sublist.subset
      ((List.dropWhile_sublist _).trans (List.drop_sublist _ _)) hc)
  have hdrop0 := skipWs_drop lx
  cases hl1 : (lx.input.drop lx.pos).dropWhile iswspace with
  | nil =>
    have hRHS : openerSpec (lx.input.drop lx.pos) = none := by
      rw [openerSpec, openerSpecWith, hl1]
    rw [hRHS]
    have hpk0 : peek (skipWs lx) = 0 := by
      rw [peek_eq_headD, hdrop0, hl1]; rfl
    have hfst : (scan_start s lx).1 = false := by
      have hqp : ((peek (skipWs lx) == 39) || (peek (skipWs lx) == 34)) = false := by
        rw [hpk0]; rfl
      simp only [scan_start, hqp, if_bool_false]
      rw [scan_ident_spec (skipWs lx), hdrop0, hl1]
      simp only [specTakeIdent, List.length_nil, Nat.add_zero]
      have heta : (Lexer.mk (skipWs lx).input (skipWs lx).pos (skipWs lx).marked (skipWs lx).result) = skipWs lx := rfl
      rw [heta, hpk0, if_pos rfl]
      rw [Bool.eq_false_iff]
      intro hb
      have h2 := (scan_start_close_fst _ _).mp hb
      exact h2.2 rfl
    rw [if_neg (by rw [hfst]; simp)]
  | cons c r =>
    have hc0 : c ≠ 0 := hnul1 c (by rw [hl1]; exact List.mem_cons_self c r)
    have hpk0 : peek (skipWs lx) = c := by
      rw [peek_eq_headD, hdrop0, hl1]; rfl
    have hdropc : (skipWs lx).input.drop (skipWs lx).pos = c :: r := by
      rw [hdrop0, hl1]
    by_cases hc39 : c = 39
    · subst hc39
      have hRHS : openerSpec (lx.input.drop lx.pos)
          = (openerSpecCore specIdentStart claimIdentCont (some 39) r).map
              (fun i => (i, true)) := by
        rw [openerSpec, openerSpecWith, hl1]
        rfl
      rw [hRHS]
      have hqp : (peek (skipWs lx) == 39 || peek (skipWs lx) == 34) = true := by
        rw [hpk0]; rfl
      have hnd : (peek (skipWs lx) == 39) = true := by rw [hpk0]; rfl
      have hX : (next (skipWs lx)).input.drop (next (skipWs lx)).pos = r := by
        show (skipWs lx).input.drop ((skipWs lx).pos + 1) = r
        exact drop_next_of_cons _ _ _ hdropc
      have hident := scan_ident_spec (next (skipWs lx))
      rw [hX] at hident
      have hpkI : peek (scan_ident (next (skipWs lx))).2
          = (r.drop (specTakeIdent specIdentStart claimIdentCont r).length).headD 0 := by
        rw [hident, peek_eq_headD]
        show (((next (skipWs lx)).input).drop ((next (skipWs lx)).pos
          + (specTakeIdent specIdentStart claimIdentCont r).length)).headD 0 = _
        rw [drop_pos_add, hX]
      have hpkI2 : peek (next (scan_ident (next (skipWs lx))).2)
          = ((r.drop (specTakeIdent specIdentStart claimIdentCont r).length).drop 1).headD 0 := by
        rw [hident, peek_eq_headD]
        have hdd : (r.drop (specTakeIdent specIdentStart claimIdentCont r).length).drop 1
            = r.drop ((specTakeIdent specIdentStart claimIdentCont r).length + 1) :=
          List.drop_drop 1 _ r
        rw [hdd]
        show (((next (skipWs lx)).input).drop ((next (skipWs lx)).pos
          + (specTakeIdent specIdentStart claimIdentCont r).length + 1)).headD 0 = _
        rw [Nat.add_assoc, drop_pos_add, hX]
      have hdelim1 : (scan_ident (next (skipWs lx))).1
          = specTakeIdent specIdentStart claimIdentCont r := by rw [hident]
      simp only [scan_start, hnd, Bool.true_or, if_true]
      rw [hpk0, hpkI]
      cases hr2 : r.drop (specTakeIdent specIdentStart claimIdentCont r).length with
      | nil =>
        have hcv : openerSpecCore specIdentStart claimIdentCont (some 39) r = none := by
          simp only [openerSpecCore]
          rw [hr2]
        simp [hcv]
      | cons d r3 =>
        by_cases hd : d = 39
        · subst hd
          cases r3 with
          | nil =>
            have hcv : openerSpecCore specIdentStart claimIdentCont (some 39) r = none := by
              simp only [openerSpecCore]
              rw [hr2]
            simp [hcv, scan_start_close_fst, hpkI2, hr2]
          | cons e r4 =>
            by_cases h10 : e = 10
            · subst h10
              by_cases hIe : specTakeIdent specIdentStart claimIdentCont r = []
              · have hcv : openerSpecCore specIdentStart claimIdentCont (some 39) r = none := by
                  simp only [openerSpecCore]
                  rw [hr2]
                  simp [hIe]
                simp [hcv, scan_start_close_fst, scan_start_close_delim,
                  scan_start_close_nowdoc, hpkI2, hr2, hdelim1, hIe]
              · have hcv : openerSpecCore specIdentStart claimIdentCont (some 39) r
                    = some (specTakeIdent specIdentStart claimIdentCont r) := by
                  simp only [openerSpecCore]
                  rw [hr2]
                  simp [hIe]
                simp [hcv, scan_start_close_fst, scan_start_close_delim,
                  scan_start_close_nowdoc, hpkI2, hr2, hdelim1, hIe]
            · have hcv : openerSpecCore specIdentStart claimIdentCont (some 39) r = none := by
                simp only [openerSpecCore]
                rw [hr2]
                simp [h10]
              simp [hcv, scan_start_close_fst, scan_start_close_delim,
                scan_start_close_nowdoc, hpkI2, hr2, hdelim1, h10]
        · cases r3 with
          | nil =>
            have hcv : openerSpecCore specIdentStart claimIdentCont (some 39) r = none := by
              simp only [openerSpecCore]
              rw [hr2]
            simp [hcv, hd]
          | cons e r4 =>
            have hcv : openerSpecCore specIdentStart claimIdentCont (some 39) r = none := by
              simp only [openerSpecCore]
              rw [hr2]
              simp [hd]
            simp [hcv, hd]
    · by_cases hc34 : c = 34
      · subst hc34
        have hRHS : openerSpec (lx.input.drop lx.pos)
            = (openerSpecCore specIdentStart claimIdentCont (some 34) r).map
                (fun i => (i, false)) := by
          rw [openerSpec, openerSpecWith, hl1]
          rfl
        rw [hRHS]
        have hnd : (peek (skipWs lx) == 39) = false := by rw [hpk0]; rfl
        have h34 : (peek (skipWs lx) == 34) = true := by rw [hpk0]; rfl
        have hX : (next (skipWs lx)).input.drop (next (skipWs lx)).pos = r := by
          show (skipWs lx).input.drop ((skipWs lx).pos + 1) = r
          exact drop_next_of_cons _ _ _ hdropc
        have hident := scan_ident_spec (next (skipWs lx))
        rw [hX] at hident
        have hpkI : peek (scan_ident (next (skipWs lx))).2
            = (r.drop (specTakeIdent specIdentStart claimIdentCont r).length).headD 0 := by
          rw [hident, peek_eq_headD]
          show (((next (skipWs lx)).input).drop ((next (skipWs lx)).pos
            + (specTakeIdent specIdentStart claimIdentCont r).length)).headD 0 = _
          rw [drop_pos_add, hX]
        have hpkI2 : peek (next (scan_ident (next (skipWs lx))).2)
            = ((r.drop (specTakeIdent specIdentStart claimIdentCont r).length).drop 1).headD 0 := by
          rw [hident, peek_eq_headD]
          have hdd : (r.drop (specTakeIdent specIdentStart claimIdentCont r).length).drop 1
              = r.drop ((specTakeIdent specIdentStart claimIdentCont r).length + 1) :=
            List.drop_drop 1 _ r
          rw [hdd]
          show (((next (skipWs lx)).input).drop ((next (skipWs lx)).pos
            + (specTakeIdent specIdentStart claimIdentCont r).length + 1)).headD 0 = _
          rw [Nat.add_assoc, drop_pos_add, hX]
        have hdelim1 : (scan_ident (next (skipWs lx))).1
            = specTakeIdent specIdentStart claimIdentCont r := by rw [hident]
        simp only [scan_start, hnd, Bool.false_or, h34, if_true]
        rw [hpk0, hpkI]
        cases hr2 : r.drop (specTakeIdent specIdentStart claimIdentCont r).length with
        | nil =>
          have hcv : openerSpecCore specIdentStart claimIdentCont (some 34) r = none := by
            simp only [openerSpecCore]
            rw [hr2]
          simp [hcv]
        | cons d r3 =>
          by_cases hd : d = 34
          · subst hd
            cases r3 with
            | nil =>
              have hcv : openerSpecCore specIdentStart claimIdentCont (some 34) r = none := by
                simp only [openerSpecCore]
                rw [hr2]
              simp [hcv, scan_start_close_fst, hpkI2, hr2]
            | cons e r4 =>
              by_cases h10 : e = 10
              · subst h10
                by_cases hIe : specTakeIdent specIdentStart claimIdentCont r = []
                · have hcv : openerSpecCore specIdentStart claimIdentCont (some 34) r = none := by
                    simp only [openerSpecCore]
                    rw [hr2]
                    simp [hIe]
                  simp [hcv, scan_start_close_fst, scan_start_close_delim,
                    scan_start_close_nowdoc, hpkI2, hr2, hdelim1, hIe]
                · have hcv : openerSpecCore specIdentStart claimIdentCont (some 34) r
                      = some (specTakeIdent specIdentStart claimIdentCont r) := by
                    simp only [openerSpecCore]
                    rw [hr2]
                    simp [hIe]
                  simp [hcv, scan_start_close_fst, scan_start_close_delim,
                    scan_start_close_nowdoc, hpkI2, hr2, hdelim1, hIe]
              · have hcv : openerSpecCore specIdentStart claimIdentCont (some 34) r = none := by
                  simp only [openerSpecCore]
                  rw [hr2]
                  simp [h10]
                simp [hcv, scan_start_close_fst, scan_start_close_delim,
                  scan_start_close_nowdoc, hpkI2, hr2, hdelim1, h10]
          · cases r3 with
            | nil =>
              have hcv : openerSpecCore specIdentStart claimIdentCont (some 34) r = none := by
                simp only [openerSpecCore]
                rw [hr2]
              simp [hcv, hd]
            | cons e r4 =>
              have hcv : openerSpecCore specIdentStart claimIdentCont (some 34) r = none := by
                simp only [openerSpecCore]
                rw [hr2]
                simp [hd]
              simp [hcv, hd]
      · -- bare opener
        have hRHS : openerSpec (lx.input.drop lx.pos)
            = (openerSpecCore specIdentStart claimIdentCont none (c :: r)).map
                (fun i => (i, false)) := by
          rw [openerSpec, openerSpecWith, hl1]
          simp [hc39, hc34]
        rw [hRHS]
        have hnd : (peek (skipWs lx) == 39) = false := by
          rw [hpk0]; simp [hc39]
        have h34 : (peek (skipWs lx) == 34) = false := by
          rw [hpk0]; simp [hc34]
        have hident := scan_ident_spec (skipWs lx)
        rw [hdropc] at hident
        have hpkI : peek (scan_ident (skipWs lx)).2
            = ((c :: r).drop (specTakeIdent specIdentStart claimIdentCont (c :: r)).length).headD 0 := by
          rw [hident, peek_eq_headD]
          show (((skipWs lx)).input.drop ((skipWs lx).pos
            + (specTakeIdent specIdentStart claimIdentCont (c :: r)).length)).headD 0 = _
          rw [drop_pos_add, hdropc]
        have hpkI2 : peek (next (scan_ident (skipWs lx)).2)
            = (((c :: r).drop (specTakeIdent specIdentStart claimIdentCont (c :: r)).length).drop 1).headD 0 := by
          rw [hident, peek_eq_headD]
          have hdd : ((c :: r).drop (specTakeIdent specIdentStart claimIdentCont (c :: r)).length).drop 1
              = (c :: r).drop ((specTakeIdent specIdentStart claimIdentCont (c :: r)).length + 1) :=
            List.drop_drop 1 _ (c :: r)
          rw [hdd]
          show (((skipWs lx)).input.drop ((skipWs lx).pos
            + (specTakeIdent specIdentStart claimIdentCont (c :: r)).length + 1)).headD 0 = _
          rw [Nat.add_assoc, drop_pos_add, hdropc]
        have hdelim1 : (scan_ident (skipWs lx)).1
            = specTakeIdent specIdentStart claimIdentCont (c :: r) := by rw [hident]
        simp only [scan_start, hnd, Bool.false_or, h34, if_bool_false]
        rw [hpkI]
        cases hr2 : (c :: r).drop (specTakeIdent specIdentStart claimIdentCont (c :: r)).length with
        | nil =>
          have hcv : openerSpecCore specIdentStart claimIdentCont none (c :: r) = none := by
            simp only [openerSpecCore]
            rw [hr2]
          simp [hcv, scan_start_close_fst, hpkI2, hr2]
        | cons d r3 =>
          have hd0 : d ≠ 0 := hnul1 d (by
            rw [hl1]
            exact (List.drop_sublist _ _).subset (hr2 ▸ List.mem_cons_self d r3))
          by_cases h10 : d = 10
          · subst h10
            by_cases hIe : specTakeIdent specIdentStart claimIdentCont (c :: r) = []
            · have hcv : openerSpecCore specIdentStart claimIdentCont none (c :: r) = none := by
                simp only [openerSpecCore]
                rw [hr2]
                simp [hIe]
              simp [hcv, scan_start_close_fst, scan_start_close_delim,
                scan_start_close_nowdoc, hpkI, hr2, hdelim1, hIe]
            · have hcv : openerSpecCore specIdentStart claimIdentCont none (c :: r)
                  = some (specTakeIdent specIdentStart claimIdentCont (c :: r)) := by
                simp only [openerSpecCore]
                rw [hr2]
                simp [hIe]
              simp [hcv, scan_start_close_fst, scan_start_close_delim,
                scan_start_close_nowdoc, hpkI, hr2, hdelim1, hIe]
          · have hcv : openerSpecCore specIdentStart claimIdentCont none (c :: r) = none := by
              simp only [openerSpecCore]
              rw [hr2]
              simp [h10]
            simp [hcv, scan_start_close_fst, scan_start_close_delim,
              scan_start_close_nowdoc, hpkI, hr2, hdelim1, h10, hd0]

/-- Claim C5 (amended): `scan_start` succeeds if and only if, after skipping
leading whitespace, the input consists of an optional single or double quote,
a non-empty identifier matching `[_A-Za-z][_A-Za-z0-9]*` (bytes 0x80-0xFF are
accepted nowhere: `iswalpha`/`iswalnum` at the default C locale are
ASCII-only), the closing quote equal in kind to the opening quote when one
was present, and then immediately a newline; on success `delimiter` holds
exactly that identifier and `is_nowdoc` is true exactly when the opener was
single-quoted.  `openerSpec` is the spec-side opener grammar; inputs are
NUL-free since the lexer reports 0 only at end of input. -/
theorem scan_start_spec (s : Scanner) (lx : Lexer) (hnul : ∀ c ∈ lx.input, c ≠ 0) :
    ((scan_start s lx).1 = true ↔ (openerSpec (lx.input.drop lx.pos)).isSome = true) ∧
    (∀ ident nd, openerSpec (lx.input.drop lx.pos) = some (ident, nd) →
      (scan_start s lx).2.1.delimiter = ident ∧ (scan_start s lx).2.1.is_nowdoc = nd) := by
  have hobs := scan_start_obs s lx hnul
  constructor
  · constructor
    · intro h1
      rw [if_pos h1] at hobs
      rw [← hobs]
      rfl
    · intro h2
      by_contra hne
      rw [if_neg hne] at hobs
      rw [← hobs] at h2
      simp at h2
  · intro ident nd h
    have h1 : (scan_start s lx).1 = true := by
      by_contra hne
      rw [if_neg hne] at hobs
      rw [← hobs] at h
      simp at h
    rw [if_pos h1] at hobs
    rw [h] at hobs
    simp only [Option.some.injEq, Prod.mk.injEq] at hobs
    exact hobs

/-- Witness for the amended C5 at the concrete opener `EOF\n`. -/
theorem scan_start_spec_witness :
    (scan_start initScanner ⟨[69, 79, 70, 10], 0, none, none⟩).2.1.delimiter
        = [69, 79, 70] ∧
    (scan_start initScanner ⟨[69, 79, 70, 10], 0, none, none⟩).2.1.is_nowdoc = false :=
  (scan_start_spec initScanner ⟨[69, 79, 70, 10], 0, none, none⟩ (by decide)).2
    [69, 79, 70] false (by decide)

end TreeSitterHack
